import Mathlib

/-!
Verification of the testa CLI scaffolding tool (TypeScript) against its
natural-language specification. The TypeScript core is shallowly embedded:
each relevant source function is translated into an executable Lean
definition over `String`/`List Char`, and the spec's claims are settled as
theorems about those definitions.

Conventions used throughout:
* string literals write every literal brace as the escape \x7b or \x7d;
* JavaScript strings are modelled as `String` (a structure holding
  `List Char`), and scanning functions that a regex engine runs are
  modelled as structural or fuel-indexed recursions on the character list,
  with the fuel chosen so that it never runs out on the real input.
-/

set_option maxRecDepth 16384

/-! ## String preliminaries -/

/-- Boolean prefix test on character lists (own definition so that all
lemmas about it are proved in this file). -/
def prefB : List Char → List Char → Bool
  | [], _ => true
  | _ :: _, [] => false
  | a :: as, b :: bs => a == b && prefB as bs

/-- Boolean infix (substring) test on character lists. -/
def infixB (pat : List Char) (s : List Char) : Bool :=
  s.tails.any (fun t => prefB pat t)

/-- Substring containment on strings: `containsStr s pat` is true when
`pat` occurs contiguously inside `s`. -/
def containsStr (s pat : String) : Bool :=
  infixB pat.data s.data

/-! ## C1: method-specific success-path API test bodies

`generateApiTestForMethod` from `src/analyzer.ts` (lines 422-478) returns
the body of the success-path test for a selected endpoint; the TypeScript
template literal interpolates the endpoint path once, so each branch is a
constant prefix, the path, and a constant suffix. -/

/-- Constant part of the `get` branch before the interpolated path. -/
def getPre : String := "const response = await axios.get(`$\x7bbaseUrl\x7d"

/-- Constant part of the `get` branch after the interpolated path. -/
def getSuf : String := "`);\n    \n    expect(response.status).toBe(200);\n    expect(response.data).toBeDefined();"

/-- Constant part of the `post` branch before the interpolated path. -/
def postPre : String := "const payload = \x7b\n      // Add appropriate request body\n      name: 'Test Name',\n      email: 'test@example.com'\n    \x7d;\n    \n    const response = await axios.post(`$\x7bbaseUrl\x7d"

/-- Constant part of the `post` branch after the interpolated path. -/
def postSuf : String := "`, payload);\n    \n    expect(response.status).toBe(201); // or 200 depending on your API\n    expect(response.data).toBeDefined();"

/-- Constant part of the `put` branch before the interpolated path. -/
def putPre : String := "const payload = \x7b\n      // Add appropriate request body\n      id: 1,\n      name: 'Updated Name',\n      email: 'updated@example.com'\n    \x7d;\n    \n    const response = await axios.put(`$\x7bbaseUrl\x7d"

/-- Constant part of the `put` branch after the interpolated path. -/
def putSuf : String := "`, payload);\n    \n    expect(response.status).toBe(200);\n    expect(response.data).toBeDefined();"

/-- Constant part of the `delete` branch before the interpolated path. -/
def deletePre : String := "const response = await axios.delete(`$\x7bbaseUrl\x7d"

/-- Constant part of the `delete` branch after the interpolated path. -/
def deleteSuf : String := "`);\n    \n    expect(response.status).toBe(200); // or 204 for No Content\n    expect(response.data).toBeDefined();"

/-- Constant part of the `patch` branch before the interpolated path. -/
def patchPre : String := "const payload = \x7b\n      // Add partial data to update\n      name: 'Patched Name'\n    \x7d;\n    \n    const response = await axios.patch(`$\x7bbaseUrl\x7d"

/-- Constant part of the `patch` branch after the interpolated path. -/
def patchSuf : String := "`, payload);\n    \n    expect(response.status).toBe(200);\n    expect(response.data).toBeDefined();"

/-- Embedding of `generateApiTestForMethod(method, path)` from
`src/analyzer.ts`: a switch over the lower-cased method name whose default
branch coincides with the `get` branch. -/
def generateApiTestForMethod (method p : String) : String :=
  match method with
  | "get" => getPre ++ p ++ getSuf
  | "post" => postPre ++ p ++ postSuf
  | "put" => putPre ++ p ++ putSuf
  | "delete" => deletePre ++ p ++ deleteSuf
  | "patch" => patchPre ++ p ++ patchSuf
  | _ => getPre ++ p ++ getSuf

/-- The success-status assertion line for status 200. -/
def statusLine200 : String := "expect(response.status).toBe(200)"

/-- The success-status assertion line for status 201. -/
def statusLine201 : String := "expect(response.status).toBe(201)"

/-- The opening of the synthesized placeholder payload object. -/
def payloadOpen : String := "const payload = \x7b"

/-! ## C2: pages-directory filename-to-route derivation

`analyzeUiStructure` in `src/analyzer.ts` (lines 207-224) converts a file
path relative to the pages directory into a route by three chained
JavaScript replace calls and then prepends a slash; routes equal to the
bare slash are filtered out. -/

/-- Drop the last `n` characters of a list. -/
def dropRightL (l : List Char) (n : Nat) : List Char :=
  l.take (l.length - n)

/-- Boolean suffix test on character lists. -/
def endsWithL (s suf : List Char) : Bool :=
  prefB suf.reverse s.reverse

/-- Embedding of the replace of the anchored extension pattern (the regex
alternation of js, jsx, ts and tsx after a literal dot, anchored at the
end): it strips the matching extension suffix when one is present. -/
def stripExt (s : List Char) : List Char :=
  if endsWithL s ".jsx".data then dropRightL s 4
  else if endsWithL s ".tsx".data then dropRightL s 4
  else if endsWithL s ".js".data then dropRightL s 3
  else if endsWithL s ".ts".data then dropRightL s 3
  else s

/-- Embedding of the replace of the anchored trailing slash-index pattern:
it strips a final "/index" segment when one is present (a bare "index"
with no preceding slash does not match). -/
def stripIndex (s : List Char) : List Char :=
  if endsWithL s "/index".data then dropRightL s 6 else s

/-- Split a character list at its first right bracket: `some (a, b)` when
the list is `a ++ rbracket :: b` with no right bracket in `a`. -/
def splitAtRBracket : List Char → Option (List Char × List Char)
  | [] => none
  | c :: rest =>
    if c = ']' then some ([], rest)
    else (splitAtRBracket rest).map (fun ab => (c :: ab.1, ab.2))

/-- Fuel-indexed embedding of the global replace of the bracket pattern
(a literal left bracket, one or more characters other than a right
bracket, a literal right bracket) by a colon followed by the captured
characters. Each step consumes at least one character, so fuel equal to
the list length never runs out. -/
def bracketReplN : Nat → List Char → List Char
  | 0, s => s
  | _ + 1, [] => []
  | n + 1, c :: rest =>
    if c = '[' then
      match splitAtRBracket rest with
      | some (inner, after) =>
        if inner.isEmpty then c :: bracketReplN n rest
        else ':' :: (inner ++ bracketReplN n after)
      | none => c :: bracketReplN n rest
    else c :: bracketReplN n rest

/-- The bracket replace with its fuel fixed to the input length. -/
def bracketReplL (s : List Char) : List Char :=
  bracketReplN s.length s

/-- Embedding of the route derivation of `analyzeUiStructure`: slash
prepended to the relative path with the extension stripped, a trailing
slash-index segment stripped, and bracketed segments rewritten to colon
parameters. -/
def deriveRoute (relativePath : String) : String :=
  ⟨'/' :: bracketReplL (stripIndex (stripExt relativePath.data))⟩

/-- Embedding of the route filter: a derived route is appended to the
Scan Result exactly when it differs from the bare slash. -/
def routeIncluded (relativePath : String) : Bool :=
  deriveRoute relativePath != "/"

/-! ## C6 and C9: generated test file naming

`generateTest` in the CLI entry source (lines 763-825) derives the output
file name from the test name, and on a collision with an existing file
writes a timestamp-suffixed alternate file instead. The file system is
modelled as a map from file names to contents, and the template text
written by `generateTestContent` enters as an opaque `content` argument
(the naming claims do not depend on it). -/

/-- The whitespace class of the JavaScript regex engine, restricted to the
characters that can occur in practice (space, tab, newline, carriage
return, vertical tab, form feed, no-break space). -/
def isJsWs (c : Char) : Bool :=
  c = ' ' || c = '\t' || c = '\n' || c = '\r' || c = '\x0b' || c = '\x0c' || c = '\xa0'

/-- Embedding of the global replace of one-or-more whitespace by a single
hyphen: the flag records whether the scanner is inside a whitespace run. -/
def collapseWsAux : Bool → List Char → List Char
  | _, [] => []
  | inRun, c :: rest =>
    if isJsWs c then
      if inRun then collapseWsAux true rest
      else '-' :: collapseWsAux true rest
    else c :: collapseWsAux false rest

/-- The slug of a test name: whitespace runs replaced by hyphens, then
lower-cased (the order of the two steps follows the source). -/
def slugOf (name : String) : String :=
  ⟨(collapseWsAux false name.data).map Char.toLower⟩

/-- Embedding of the file-name derivation of `generateTest`: a name that
contains the dot-spec-dot marker is used verbatim, any other name is
slugged and given the spec-ts extension. -/
def fileNameFor (testName : String) : String :=
  if containsStr testName ".spec." then testName
  else slugOf testName ++ ".spec.ts"

/-- Embedding of the timestamp-suffixed alternate file name used on a
collision; `now` stands for the millisecond clock value. -/
def altFileNameFor (testName : String) (now : Nat) : String :=
  slugOf testName ++ "-" ++ Nat.repr now ++ ".spec.ts"

/-- Embedding of `generateTest`: returns the name of the file written and
the file system after the write. When the derived file name exists the
alternate name is written instead; otherwise the derived name is written. -/
def generateTest (fs : String → Option String) (testName : String)
    (now : Nat) (content : String) : String × (String → Option String) :=
  if (fs (fileNameFor testName)).isSome then
    (altFileNameFor testName now,
      fun k => if k = altFileNameFor testName now then some content else fs k)
  else
    (fileNameFor testName,
      fun k => if k = fileNameFor testName then some content else fs k)

/-! ## C5: websocket test templates

`generateTestContent` in the CLI entry source (lines 1006-1110) selects
one of two string templates for the websocket category: one parameterized
by the selected socket URL, and a default one used when no socket URL is
present. The TypeScript template literals interpolate the test name (and
in the first case the URL) once each, so they decompose into constant
pieces. -/

/-- Constant opening of the URL-parameterized websocket template, before
the interpolated test name. -/
def wsUrlPre : String := "import \x7b test, expect \x7d from '@playwright/test';\nimport WebSocket from 'ws';\n\ntest.describe('"

/-- Constant middle of the URL-parameterized websocket template, between
the test name and the socket URL. -/
def wsUrlMid : String := "', () => \x7b\n  let client: WebSocket;\n  \n  test.beforeEach(() => \x7b\n    client = new WebSocket('"

/-- Constant tail of the URL-parameterized websocket template, after the
socket URL: connection, send-receive (with the five-second timeout) and
disconnection tests. -/
def wsUrlSuf : String := "');\n  \x7d);\n  \n  test.afterEach(() => \x7b\n    client.close();\n  \x7d);\n  \n  test('should establish connection', async () => \x7b\n    return new Promise<void>((resolve) => \x7b\n      client.on('open', () => \x7b\n        expect(client.readyState).toBe(WebSocket.OPEN);\n        resolve();\n      \x7d);\n    \x7d);\n  \x7d);\n  \n  test('should send and receive message', async () => \x7b\n    return new Promise<void>((resolve, reject) => \x7b\n      client.on('open', () => \x7b\n        client.send(JSON.stringify(\x7b type: 'test', content: 'message' \x7d));\n      \x7d);\n      \n      client.on('message', (data) => \x7b\n        try \x7b\n          const message = JSON.parse(data.toString());\n          expect(message).toBeDefined();\n          resolve();\n        \x7d catch (error) \x7b\n          reject(error);\n        \x7d\n      \x7d);\n      \n      // Add timeout for test failure\n      setTimeout(() => \x7b\n        reject(new Error('Timed out waiting for response'));\n      \x7d, 5000);\n    \x7d);\n  \x7d);\n  \n  test('should handle disconnection properly', async () => \x7b\n    return new Promise<void>((resolve) => \x7b\n      client.on('open', () => \x7b\n        client.close();\n      \x7d);\n      \n      client.on('close', () => \x7b\n        expect(client.readyState).toBe(WebSocket.CLOSED);\n        resolve();\n      \x7d);\n    \x7d);\n  \x7d);\n\x7d);"

/-- Constant opening of the default websocket template, before the
interpolated test name. -/
def wsDefPre : String := "import \x7b test, expect \x7d from '@playwright/test';\nimport WebSocket from 'ws';\n\ntest.describe('"

/-- Constant tail of the default websocket template, after the test name:
the fixed default URL, a connection test and a send-receive test (no
timeout, no disconnection test). -/
def wsDefSuf : String := "', () => \x7b\n  let client: WebSocket;\n  \n  test.beforeEach(() => \x7b\n    client = new WebSocket('ws://localhost:3000/ws');\n  \x7d);\n  \n  test.afterEach(() => \x7b\n    client.close();\n  \x7d);\n  \n  test('should establish connection', async () => \x7b\n    return new Promise<void>((resolve) => \x7b\n      client.on('open', () => \x7b\n        expect(client.readyState).toBe(WebSocket.OPEN);\n        resolve();\n      \x7d);\n    \x7d);\n  \x7d);\n  \n  test('should send and receive message', async () => \x7b\n    return new Promise<void>((resolve) => \x7b\n      client.on('open', () => \x7b\n        client.send(JSON.stringify(\x7b type: 'test', content: 'message' \x7d));\n      \x7d);\n      \n      client.on('message', (data) => \x7b\n        const message = JSON.parse(data.toString());\n        expect(message).toBeDefined();\n        resolve();\n      \x7d);\n    \x7d);\n  \x7d);\n\x7d);"

/-- The websocket template parameterized by a selected socket URL. -/
def wsTemplateWithUrl (testName socketUrl : String) : String :=
  wsUrlPre ++ testName ++ wsUrlMid ++ socketUrl ++ wsUrlSuf

/-- The default websocket template used when no socket URL is present. -/
def wsTemplateDefault (testName : String) : String :=
  wsDefPre ++ testName ++ wsDefSuf

/-- Embedding of the websocket branch of `generateTestContent`: dispatch
on whether a socket URL Selection is present. -/
def wsGenerateTestContent (testName : String) (socketUrl : Option String) : String :=
  match socketUrl with
  | some u => wsTemplateWithUrl testName u
  | none => wsTemplateDefault testName

/-! ## C3 and C4: the websocket scan

`analyzeWebSockets` in `src/analyzer.ts` (lines 311-343) iterates four
socket patterns over each file. The first pattern is a case-insensitive
regex without the global flag; since every regex object has an `exec`
function, the source's `typeof pattern.exec` guard always takes the
`exec` branch, so the branch that would set the has-websockets flag via
`pattern.test` is unreachable, and the while-exec loop on the non-global
first pattern restarts from index zero on every iteration. The loop is
embedded with explicit fuel; the remaining three patterns carry the
global flag, whose exec advances past each match, and are embedded as
terminating scans. -/

/-- The word-character class of the JavaScript regex engine (letters,
digits, underscore), used by the word-boundary assertions. -/
def isWordChar (c : Char) : Bool :=
  c.isAlpha || c.isDigit || c = '_'

/-- The alternatives of the identifier-presence pattern, lower-cased for
the case-insensitive comparison, in the source's order. -/
def socketAlts : List (List Char) :=
  ["websocket".data, "ws".data, "socket.io".data, "socketio".data, "sock".data]

/-- Case-insensitive prefix test: the pattern alternative (already lower
case) against the lower-cased text. -/
def lowerPrefix (a s : List Char) : Bool :=
  prefB a (s.map Char.toLower)

/-- Word-boundary assertion before position `i` of the subject (the
alternatives all start with a word character). -/
def boundaryBefore (orig : List Char) (i : Nat) : Bool :=
  match i with
  | 0 => true
  | k + 1 =>
    match orig.get? k with
    | none => true
    | some c => !isWordChar c

/-- Word-boundary assertion after position `j` of the subject (the
alternatives all end with a word character). -/
def boundaryAfter (orig : List Char) (j : Nat) : Bool :=
  match orig.get? j with
  | none => true
  | some c => !isWordChar c

/-- Try the identifier alternatives, in order, at one position; on success
the captured group is the original-case slice of the subject. -/
def tryAltsAt (orig : List Char) (i : Nat) (s : List Char) : Option (List Char) :=
  socketAlts.findSome? fun a =>
    if lowerPrefix a s && boundaryBefore orig i && boundaryAfter orig (i + a.length)
    then some (s.take a.length) else none

/-- Scan for the leftmost identifier-pattern match from position `i`. -/
def exec1Aux (orig : List Char) : Nat → List Char → Option (List Char)
  | _, [] => none
  | i, c :: rest =>
    match tryAltsAt orig i (c :: rest) with
    | some cap => some cap
    | none => exec1Aux orig (i + 1) rest

/-- Embedding of `exec` of the first socket pattern: without the global
flag the search always restarts from index zero, so every call returns
the leftmost match of the whole subject. -/
def exec1 (content : List Char) : Option (List Char) :=
  exec1Aux content 0 content

/-- Drop leading regex whitespace (the star-quantified whitespace class). -/
def dropWs (s : List Char) : List Char :=
  s.dropWhile isJsWs

/-- Consume an exact literal. -/
def expectLit (lit s : List Char) : Option (List Char) :=
  if prefB lit s then some (s.drop lit.length) else none

/-- Consume one-or-more regex whitespace (the plus-quantified class). -/
def expectWs1 (s : List Char) : Option (List Char) :=
  match s with
  | [] => none
  | c :: rest => if isJsWs c then some (rest.dropWhile isJsWs) else none

/-- The quote class of the URL-capturing patterns: either quote kind. -/
def isQuote (c : Char) : Bool :=
  c = '"' || c = '\''

/-- Consume one quote of either kind. -/
def expectQuote (s : List Char) : Option (List Char) :=
  match s with
  | [] => none
  | c :: rest => if isQuote c then some rest else none

/-- The captured URL: the run of characters of neither quote kind, and
what follows it. -/
def captureUrl (s : List Char) : List Char × List Char :=
  (s.takeWhile (fun c => !isQuote c), s.dropWhile (fun c => !isQuote c))

/-- Match the second socket pattern (new, whitespace, WebSocket, optional
whitespace, opening parenthesis, optional whitespace, quote, captured
URL, quote) at the head of `s`; returns the capture and the rest after
the match. -/
def matchP2At (s : List Char) : Option (List Char × List Char) :=
  (expectLit "new".data s).bind fun s1 =>
  (expectWs1 s1).bind fun s2 =>
  (expectLit "WebSocket".data s2).bind fun s3 =>
  (expectLit "(".data (dropWs s3)).bind fun s5 =>
  (expectQuote (dropWs s5)).bind fun s7 =>
  (expectQuote (captureUrl s7).2).map fun s9 => ((captureUrl s7).1, s9)

/-- Match the third socket pattern (the two letters i and o, optional
whitespace, opening parenthesis, optional whitespace, quote, captured
URL, quote) at the head of `s`. -/
def matchP3At (s : List Char) : Option (List Char × List Char) :=
  (expectLit "io".data s).bind fun s1 =>
  (expectLit "(".data (dropWs s1)).bind fun s3 =>
  (expectQuote (dropWs s3)).bind fun s5 =>
  (expectQuote (captureUrl s5).2).map fun s7 => ((captureUrl s5).1, s7)

/-- Match the fourth socket pattern (socket dot connect, optional
whitespace, opening parenthesis, optional whitespace, quote, captured
URL, quote) at the head of `s`. -/
def matchP4At (s : List Char) : Option (List Char × List Char) :=
  (expectLit "socket.connect".data s).bind fun s1 =>
  (expectLit "(".data (dropWs s1)).bind fun s3 =>
  (expectQuote (dropWs s3)).bind fun s5 =>
  (expectQuote (captureUrl s5).2).map fun s7 => ((captureUrl s5).1, s7)

/-- All matches of a global pattern: on a match the scan continues after
it (the advancing last-index), otherwise it advances one position. Every
step consumes at least one character, so fuel equal to the subject length
never runs out. -/
def allMatchesP (matchAt : List Char → Option (List Char × List Char)) :
    Nat → List Char → List (List Char)
  | 0, _ => []
  | n + 1, s =>
    match matchAt s with
    | some (cap, rest) => cap :: allMatchesP matchAt n rest
    | none =>
      match s with
      | [] => []
      | _ :: tail => allMatchesP matchAt n tail

/-- A SocketImplementation entry of the Scan Result. -/
structure SockImpl where
  file : String
  url : Option String
deriving DecidableEq

/-- The websocket part of the Scan Result: the has-websockets flag and
the list of SocketImplementation entries. -/
structure WsScanResult where
  hasWebSockets : Bool
  socketImplementations : List SockImpl
deriving DecidableEq

/-- Entries made from the captures of a URL pattern; an empty capture is
falsy in the source's truthiness test and is not pushed. -/
def urlImpls (file : String) (caps : List (List Char)) : List SockImpl :=
  caps.filterMap fun cap =>
    if cap.isEmpty then none else some ⟨file, some ⟨cap⟩⟩

/-- The while-exec loop over the first (non-global) pattern, with fuel:
each iteration calls `exec1` afresh, so when the subject matches, every
iteration pushes the same entry again and the loop never exits. -/
def p1LoopFuel (file : String) (content : List Char) :
    Nat → List SockImpl → Option (List SockImpl)
  | 0, _ => none
  | n + 1, acc =>
    match exec1 content with
    | none => some acc
    | some cap => p1LoopFuel file content n (acc ++ [⟨file, some ⟨cap⟩⟩])

/-- The per-file pattern loop of `analyzeWebSockets`: the fuelled loop on
the first pattern, then the three terminating global URL patterns. -/
def scanFileSockets (fuel : Nat) (file content : String) : Option (List SockImpl) :=
  match p1LoopFuel file content.data fuel [] with
  | none => none
  | some acc =>
    some (acc
      ++ urlImpls file (allMatchesP matchP2At content.data.length content.data)
      ++ urlImpls file (allMatchesP matchP3At content.data.length content.data)
      ++ urlImpls file (allMatchesP matchP4At content.data.length content.data))

/-- The file fold of `analyzeWebSockets`, carrying the has-websockets
flag, which no reachable branch of the source ever modifies. -/
def analyzeWebSocketsGo (fuel : Nat) :
    List (String × String) → Bool → List SockImpl → Option WsScanResult
  | [], hws, acc => some ⟨hws, acc⟩
  | (f, c) :: rest, hws, acc =>
    match scanFileSockets fuel f c with
    | none => none
    | some l => analyzeWebSocketsGo fuel rest hws (acc ++ l)

/-- Embedding of `analyzeWebSockets` over the scanned files (name and
content pairs): the flag starts false, as in `analyzeApplication`. -/
def analyzeWebSockets (fuel : Nat) (files : List (String × String)) :
    Option WsScanResult :=
  analyzeWebSocketsGo fuel files false []

/-! ## C8: directory traversal exclusions

`findFiles` in `src/analyzer.ts` (lines 395-419) walks a directory tree
recursively, skipping directories named node_modules, .git, dist and
build, and collects files whose name ends in one of the given extensions.
The tree is modelled as a nested inductive; the prune function below is a
specification-side definition (it removes every excluded directory at
every depth) against which the traversal is compared. -/

/-- A directory tree entry: a file or a directory with entries. -/
inductive FsEntry where
  | file (name : String)
  | dir (name : String) (entries : List FsEntry)

/-- The directory names the traversal skips, from the source. -/
def excludedDirs : List String :=
  ["node_modules", ".git", "dist", "build"]

mutual

/-- Embedding of the body of `findFiles` for one directory entry: a file
is collected when its name ends in one of the extensions; an excluded
directory contributes nothing; any other directory is recursed into with
the slash-joined path. -/
def findFilesE (pre : String) (exts : List String) : FsEntry → List String
  | .file n =>
    if exts.any (fun e => endsWithL n.data e.data) then [pre ++ "/" ++ n] else []
  | .dir n es =>
    if n ∈ excludedDirs then [] else findFilesL (pre ++ "/" ++ n) exts es

/-- Embedding of `findFiles` over the entries of one directory. -/
def findFilesL (pre : String) (exts : List String) : List FsEntry → List String
  | [] => []
  | e :: rest => findFilesE pre exts e ++ findFilesL pre exts rest

end

/-- Embedding of the top-level `findFiles` call on a directory tree. -/
def findFiles (pre : String) (exts : List String) (entries : List FsEntry) : List String :=
  findFilesL pre exts entries

mutual

/-- Specification-side prune of one entry: drops an excluded directory
whole, prunes the children of any other directory. -/
def pruneE : FsEntry → Option FsEntry
  | .file n => some (.file n)
  | .dir n es => if n ∈ excludedDirs then none else some (.dir n (pruneL es))

/-- Specification-side prune of a list of entries. -/
def pruneL : List FsEntry → List FsEntry
  | [] => []
  | e :: rest =>
    match pruneE e with
    | none => pruneL rest
    | some e2 => e2 :: pruneL rest

end

/-! ## C7 and C10: placeholder substitution

`createProject` in the CLI entry source (lines 521-539) processes every
copied file whose name ends in one of seven extensions, chaining seven
JavaScript global replace calls, one per placeholder token of the
PLACEHOLDERS table (lines 18-26). JavaScript's replace interprets dollar
sequences in the replacement string (dollar-dollar, dollar-ampersand,
dollar-backquote for the text before the match, dollar-quote for the text
after it), so the replacement is embedded with that expansion. -/

/-- The backquote character (written by code point to keep it out of the
source text). -/
def backquoteChar : Char := Char.ofNat 96

/-- The apostrophe character (written by code point). -/
def singleQuoteChar : Char := Char.ofNat 39

/-- Expansion of a JavaScript replacement string: `matched` is the
matched text, `before` and `after` the parts of the subject around the
match. Dollar-digit sequences stay literal because the token patterns
have no capture groups. -/
def expandDollar (matched before after : List Char) : List Char → List Char
  | [] => []
  | c :: rest =>
    if c = '$' then
      match rest with
      | [] => ['$']
      | c2 :: rest2 =>
        if c2 = '$' then '$' :: expandDollar matched before after rest2
        else if c2 = '&' then matched ++ expandDollar matched before after rest2
        else if c2 = backquoteChar then before ++ expandDollar matched before after rest2
        else if c2 = singleQuoteChar then after ++ expandDollar matched before after rest2
        else '$' :: c2 :: expandDollar matched before after rest2
    else c :: expandDollar matched before after rest

/-- Split a subject at the first occurrence of a literal pattern:
`some (a, b)` when the subject is `a`, the pattern, then `b`, with no
earlier occurrence. -/
def splitFirst (pat : List Char) : List Char → Option (List Char × List Char)
  | [] => none
  | c :: rest =>
    if prefB pat (c :: rest) then some ([], (c :: rest).drop pat.length)
    else (splitFirst pat rest).map (fun ab => (c :: ab.1, ab.2))

/-- Fuel-indexed embedding of the JavaScript global replace of a literal
pattern: each match emits the expanded replacement and the scan continues
after the match; `before` tracks the consumed part of the original
subject for the dollar-backquote expansion. One unit of fuel is spent per
match and every match consumes at least one character, so fuel equal to
the subject length never runs out for a nonempty pattern. -/
def jsReplN (pat v : List Char) : Nat → List Char → List Char → List Char
  | 0, _, s => s
  | n + 1, before, s =>
    match splitFirst pat s with
    | none => s
    | some (a, b) =>
      a ++ expandDollar pat (before ++ a) b v ++ jsReplN pat v n (before ++ a ++ pat) b

/-- The JavaScript global replace of a literal pattern on strings. -/
def jsReplaceAll (s pat v : String) : String :=
  ⟨jsReplN pat.data v.data s.data.length [] s.data⟩

/-- The project-name placeholder token. -/
def tokenProjectName : String := "\x7b\x7bprojectName\x7d\x7d"

/-- The base-URL placeholder token. -/
def tokenBaseUrl : String := "\x7b\x7bbaseUrl\x7d\x7d"

/-- The API-URL placeholder token. -/
def tokenApiUrl : String := "\x7b\x7bapiUrl\x7d\x7d"

/-- The admin-email placeholder token. -/
def tokenAdminEmail : String := "\x7b\x7badminEmail\x7d\x7d"

/-- The admin-password placeholder token. -/
def tokenAdminPassword : String := "\x7b\x7badminPassword\x7d\x7d"

/-- The user-email placeholder token. -/
def tokenUserEmail : String := "\x7b\x7buserEmail\x7d\x7d"

/-- The user-password placeholder token. -/
def tokenUserPassword : String := "\x7b\x7buserPassword\x7d\x7d"

/-- The configuration values substituted for the seven tokens; the
credential fields already carry the empty-string fallback the source
applies to absent options. -/
structure Config where
  projectName : String
  baseUrl : String
  apiUrl : String
  adminEmail : String
  adminPassword : String
  userEmail : String
  userPassword : String

/-- Embedding of the seven chained replace calls of `createProject`, in
the source's order. -/
def substitutePlaceholders (content : String) (cfg : Config) : String :=
  jsReplaceAll
    (jsReplaceAll
      (jsReplaceAll
        (jsReplaceAll
          (jsReplaceAll
            (jsReplaceAll
              (jsReplaceAll content tokenProjectName cfg.projectName)
              tokenBaseUrl cfg.baseUrl)
            tokenApiUrl cfg.apiUrl)
          tokenAdminEmail cfg.adminEmail)
        tokenAdminPassword cfg.adminPassword)
      tokenUserEmail cfg.userEmail)
    tokenUserPassword cfg.userPassword

/-- Embedding of the extension gate of `createProject`: only files whose
name ends in one of the seven listed extensions are processed. -/
def shouldProcess (fileName : String) : Bool :=
  endsWithL fileName.data ".json".data || endsWithL fileName.data ".js".data
    || endsWithL fileName.data ".ts".data || endsWithL fileName.data ".md".data
    || endsWithL fileName.data ".example".data || endsWithL fileName.data ".txt".data
    || endsWithL fileName.data ".html".data

/-- Embedding of the per-file processing of `createProject`: substitution
on gated files, identity on the rest. -/
def processFile (fileName content : String) (cfg : Config) : String :=
  if shouldProcess fileName then substitutePlaceholders content cfg else content

/-- The rendered form of a placeholder token with the given name. -/
def mkTok (n : List Char) : List Char :=
  '{' :: '{' :: (n ++ ['}', '}'])

/-- A piece of content: a literal run or a placeholder token. -/
inductive Piece where
  | lit (s : List Char)
  | tok (name : List Char)
deriving DecidableEq

/-- The text of one piece. -/
def renderPiece : Piece → List Char
  | .lit l => l
  | .tok n => mkTok n

/-- The text of a piece list. -/
def render : List Piece → List Char
  | [] => []
  | p :: r => renderPiece p ++ render r

/-- Well-formedness of one piece: a literal holds no opening brace, a
token name is nonempty and holds no brace of either kind. -/
def pieceWF : Piece → Prop
  | .lit l => '{' ∉ l
  | .tok n => n ≠ [] ∧ '{' ∉ n ∧ '}' ∉ n

/-- Well-formedness of a piece list. -/
def piecesWF (ps : List Piece) : Prop :=
  ∀ p ∈ ps, pieceWF p

/-- One substitution step on pieces: the token with the given name
becomes a literal with the value, everything else is unchanged. -/
def replacePiece (pname v : List Char) : Piece → Piece
  | .lit l => .lit l
  | .tok n => if n = pname then .lit v else .tok n

/-- The simultaneous effect of all seven substitutions on one piece:
each of the seven token names becomes its configuration value, a literal
or an unrecognized token is unchanged. -/
def substPiece (cfg : Config) : Piece → Piece
  | .lit l => .lit l
  | .tok n =>
    if n = "projectName".data then .lit cfg.projectName.data
    else if n = "baseUrl".data then .lit cfg.baseUrl.data
    else if n = "apiUrl".data then .lit cfg.apiUrl.data
    else if n = "adminEmail".data then .lit cfg.adminEmail.data
    else if n = "adminPassword".data then .lit cfg.adminPassword.data
    else if n = "userEmail".data then .lit cfg.userEmail.data
    else if n = "userPassword".data then .lit cfg.userPassword.data
    else .tok n

/-- Benign configuration values: every value is free of opening braces
(so substitution cannot manufacture token text) and of dollars (so the
replacement is inserted literally). -/
def configBenign (cfg : Config) : Prop :=
  ('{' ∉ cfg.projectName.data ∧ '$' ∉ cfg.projectName.data)
  ∧ ('{' ∉ cfg.baseUrl.data ∧ '$' ∉ cfg.baseUrl.data)
  ∧ ('{' ∉ cfg.apiUrl.data ∧ '$' ∉ cfg.apiUrl.data)
  ∧ ('{' ∉ cfg.adminEmail.data ∧ '$' ∉ cfg.adminEmail.data)
  ∧ ('{' ∉ cfg.adminPassword.data ∧ '$' ∉ cfg.adminPassword.data)
  ∧ ('{' ∉ cfg.userEmail.data ∧ '$' ∉ cfg.userEmail.data)
  ∧ ('{' ∉ cfg.userPassword.data ∧ '$' ∉ cfg.userPassword.data)

/-- Modelled from the spec: the fully literal global replace — every
occurrence of the pattern is replaced by the value itself, character for
character, with no dollar expansion. Used as the specification side of
the dollar claim. -/
def literalReplN (pat v : List Char) : Nat → List Char → List Char
  | 0, s => s
  | n + 1, s =>
    match splitFirst pat s with
    | none => s
    | some (a, b) => a ++ v ++ literalReplN pat v n b

/-- The literal global replace on strings (specification side). -/
def literalReplaceAll (s pat v : String) : String :=
  ⟨literalReplN pat.data v.data s.data.length s.data⟩

/-- Well-formedness of one piece is decidable. -/
instance decPieceWF : (p : Piece) → Decidable (pieceWF p)
  | .lit l => inferInstanceAs (Decidable ('{' ∉ l))
  | .tok n => inferInstanceAs (Decidable (n ≠ [] ∧ '{' ∉ n ∧ '}' ∉ n))

/-- Well-formedness of a piece list is decidable. -/
instance decPiecesWF (ps : List Piece) : Decidable (piecesWF ps) :=
  inferInstanceAs (Decidable (∀ p ∈ ps, pieceWF p))

/-- Benignity of a configuration is decidable. -/
instance decConfigBenign (cfg : Config) : Decidable (configBenign cfg) := by
  unfold configBenign
  infer_instance

/-! ## Theorems -/

/-- Helper: a prefix test only looks at the first characters, so a long
enough left part of an append decides it. -/
theorem prefB_append_of_le (p a b : List Char) (h : p.length ≤ a.length) :
    prefB p (a ++ b) = prefB p a := by
  induction p generalizing a with
  | nil => simp [prefB]
  | cons x xs ih =>
    cases a with
    | nil => simp at h
    | cons y ys =>
      simp only [List.cons_append, prefB, List.append_eq]
      rw [ih ys (by simpa using h)]

/-- Helper: a suffix test ignores an arbitrary front extension when the
back part is at least as long as the suffix. -/
theorem endsWithL_append (d c suf : List Char) (h : suf.length ≤ c.length) :
    endsWithL (d ++ c) suf = endsWithL c suf := by
  unfold endsWithL
  rw [List.reverse_append]
  exact prefB_append_of_le _ _ _ (by simpa using h)

/-- Helper: taking the length of the left part plus `n` characters of an
append takes the left part whole and `n` from the right part. -/
theorem take_append_len (d c : List Char) (n : Nat) :
    (d ++ c).take (d.length + n) = d ++ c.take n := by
  induction d with
  | nil => simp
  | cons x xs ih => simp [List.take, ih, Nat.succ_add]

/-- Helper: splitting at the first right bracket decomposes the list. -/
theorem splitAtRBracket_eq (l a b : List Char)
    (h : splitAtRBracket l = some (a, b)) : l = a ++ ']' :: b := by
  induction l generalizing a with
  | nil => simp [splitAtRBracket] at h
  | cons c rest ih =>
    by_cases hc : c = ']'
    · subst hc
      simp [splitAtRBracket] at h
      obtain ⟨ha, hb⟩ := h
      subst ha
      subst hb
      simp
    · cases hsp : splitAtRBracket rest with
      | none => simp [splitAtRBracket, hc, hsp] at h
      | some ab =>
        obtain ⟨x, y⟩ := ab
        simp [splitAtRBracket, hc, hsp] at h
        obtain ⟨ha, hb⟩ := h
        subst ha
        subst hb
        simpa using congrArg (fun t => c :: t) (ih x hsp)

/-- Helper: the bracket replace does not depend on the fuel once the fuel
covers the list length. -/
theorem bracketReplN_fuel (n : Nat) : ∀ (m : Nat) (s : List Char),
    s.length ≤ n → s.length ≤ m → bracketReplN n s = bracketReplN m s := by
  induction n with
  | zero =>
    intro m s hn _
    have hs : s = [] := List.eq_nil_of_length_eq_zero (Nat.le_zero.mp hn)
    subst hs
    cases m <;> rfl
  | succ n ih =>
    intro m s hn hm
    cases s with
    | nil => cases m <;> rfl
    | cons c rest =>
      cases m with
      | zero => simp at hm
      | succ m =>
        have hrn : rest.length ≤ n := by simp at hn; omega
        have hrm : rest.length ≤ m := by simp at hm; omega
        simp only [bracketReplN]
        by_cases hc : c = '['
        · rw [if_pos hc, if_pos hc]
          cases hsp : splitAtRBracket rest with
          | none =>
            rw [ih m rest hrn hrm]
          | some ab =>
            obtain ⟨inner, after⟩ := ab
            have hd := splitAtRBracket_eq rest inner after hsp
            have hal : after.length ≤ rest.length := by rw [hd]; simp; omega
            rw [ih m rest hrn hrm]
            dsimp only
            rw [ih m after (by omega) (by omega)]
        · rw [if_neg hc, if_neg hc, ih m rest hrn hrm]

/-- Helper: the bracket replace passes over characters other than a left
bracket unchanged. -/
theorem bracketReplN_skip (x : List Char) : ∀ (r : List Char) (n : Nat),
    '[' ∉ x → x.length + r.length ≤ n →
    bracketReplN n (x ++ r) = x ++ bracketReplN (n - x.length) r := by
  induction x with
  | nil => intro r n _ _; simp
  | cons c xs ih =>
    intro r n hx h
    cases n with
    | zero => simp at h
    | succ n =>
      have hc : c ≠ '[' := fun hcc => hx (hcc ▸ List.mem_cons_self c xs)
      have hxs : '[' ∉ xs := fun hmm => hx (List.mem_cons_of_mem c hmm)
      simp only [List.cons_append, bracketReplN, if_neg hc, List.append_eq]
      rw [ih r n hxs (by simp at h; omega)]
      have harith : n + 1 - (c :: xs).length = n - xs.length := by
        simp
      rw [harith]

/-- Helper: splitting a list that starts with a bracket-free block and then
a right bracket finds exactly that block. -/
theorem splitAtRBracket_append (param y : List Char) (hp : ']' ∉ param) :
    splitAtRBracket (param ++ ']' :: y) = some (param, y) := by
  induction param with
  | nil => simp [splitAtRBracket]
  | cons c ps ih =>
    have hc : c ≠ ']' := fun hcc => hp (hcc ▸ List.mem_cons_self c ps)
    have hps : ']' ∉ ps := fun hmm => hp (List.mem_cons_of_mem c hmm)
    simp [splitAtRBracket, hc, ih hps]

/-- Helper: the bracket replace rewrites one well-formed bracketed group
after a bracket-free block into a colon parameter. -/
theorem bracketReplL_group (x param y : List Char)
    (hx : '[' ∉ x) (hp : ']' ∉ param) (hne : param ≠ []) :
    bracketReplL (x ++ '[' :: (param ++ ']' :: y)) =
      x ++ ':' :: (param ++ bracketReplL y) := by
  unfold bracketReplL
  have hlen : (x ++ '[' :: (param ++ ']' :: y)).length
      = x.length + (param.length + y.length + 2) := by simp; omega
  rw [hlen]
  rw [bracketReplN_skip x ('[' :: (param ++ ']' :: y)) _ hx (by simp; omega)]
  have harith : x.length + (param.length + y.length + 2) - x.length
      = (param.length + y.length + 1) + 1 := by omega
  rw [harith]
  simp only [bracketReplN, if_pos rfl, splitAtRBracket_append param y hp]
  have hie : param.isEmpty = false := by
    cases param with
    | nil => exact absurd rfl hne
    | cons a as => rfl
  simp only [hie]
  rw [bracketReplN_fuel (param.length + y.length + 1) y.length y (by omega) (by omega)]
  simp [bracketReplL]

/-- Helper: stripping the extension of a path ending in the slash-index
segment with a tsx extension leaves the slash-index segment. -/
theorem stripExt_index_tsx (d : List Char) :
    stripExt (d ++ "/index.tsx".data) = d ++ "/index".data := by
  unfold stripExt
  rw [endsWithL_append d "/index.tsx".data ".jsx".data (by decide),
    endsWithL_append d "/index.tsx".data ".tsx".data (by decide)]
  have h1 : endsWithL "/index.tsx".data ".jsx".data = false := by decide
  have h2 : endsWithL "/index.tsx".data ".tsx".data = true := by decide
  rw [h1, h2]
  simp only [Bool.false_eq_true, if_false, if_true]
  unfold dropRightL
  have hlen : (d ++ "/index.tsx".data).length - 4 = d.length + 6 := by simp
  rw [hlen, take_append_len d "/index.tsx".data 6]
  rfl

/-- Helper: stripping the trailing slash-index segment after an arbitrary
front part removes exactly that segment. -/
theorem stripIndex_slash_index (d : List Char) :
    stripIndex (d ++ "/index".data) = d := by
  unfold stripIndex
  rw [endsWithL_append d "/index".data "/index".data (by decide)]
  have h1 : endsWithL "/index".data "/index".data = true := by decide
  rw [h1]
  simp only [if_true]
  unfold dropRightL
  have hlen : (d ++ "/index".data).length - 6 = d.length + 0 := by simp
  rw [hlen, take_append_len d "/index".data 0]
  simp

/-- C2 counterexample: the relative path of the top-level pages index file
derives the route slash-index, which differs from the root route and is
therefore included in the Scan Result, contrary to the claim that it
derives the root route and is excluded. -/
theorem pagesIndexRoute_not_root :
    deriveRoute "index.tsx" = "/index"
      ∧ deriveRoute "index.tsx" ≠ "/"
      ∧ routeIncluded "index.tsx" = true := by
  refine ⟨by decide, by decide, by decide⟩

/-- C2 amended: the derived route strips the known extension, collapses a
trailing slash-index segment (so an index file in a subdirectory collapses
to the parent path, but the top-level index file derives slash-index and
is not excluded), and rewrites every well-formed bracketed segment into a
colon parameter; in particular the bracketed id page derives the colon-id
route. -/
theorem pagesRouteDerivation_amended :
    deriveRoute "users/[id].tsx" = "/users/:id"
      ∧ (deriveRoute "index.tsx" = "/index" ∧ routeIncluded "index.tsx" = true)
      ∧ (∀ d : List Char,
          deriveRoute ⟨d ++ "/index.tsx".data⟩ = ⟨'/' :: bracketReplL d⟩)
      ∧ (∀ x param y : List Char, '[' ∉ x → ']' ∉ param → param ≠ [] →
          bracketReplL (x ++ '[' :: (param ++ ']' :: y)) =
            x ++ ':' :: (param ++ bracketReplL y)) := by
  refine ⟨by decide, ⟨by decide, by decide⟩, ?_, ?_⟩
  · intro d
    show String.mk ('/' :: bracketReplL (stripIndex (stripExt (d ++ "/index.tsx".data))))
      = String.mk ('/' :: bracketReplL d)
    rw [stripExt_index_tsx d, stripIndex_slash_index d]
  · intro x param y hx hp hne
    exact bracketReplL_group x param y hx hp hne


/-- C1: for every endpoint path, the api-category success-path test body
decomposes as a constant prefix, the path, and a constant suffix, where the
constant suffix asserts status 201 exactly for `post` and status 200 for
`get`, `put`, `patch` and `delete`, and the constant parts synthesize a
placeholder payload object exactly for `post`, `put` and `patch` (the
word payload does not occur at all in the `get` and `delete` bodies). -/
theorem apiSuccessBody_status_and_payload (p : String) :
    (generateApiTestForMethod "get" p = getPre ++ p ++ getSuf
      ∧ containsStr getSuf statusLine200 = true
      ∧ containsStr getSuf statusLine201 = false
      ∧ containsStr (getPre ++ getSuf) "payload" = false)
    ∧ (generateApiTestForMethod "post" p = postPre ++ p ++ postSuf
      ∧ containsStr postSuf statusLine201 = true
      ∧ containsStr postSuf statusLine200 = false
      ∧ containsStr postPre payloadOpen = true)
    ∧ (generateApiTestForMethod "put" p = putPre ++ p ++ putSuf
      ∧ containsStr putSuf statusLine200 = true
      ∧ containsStr putSuf statusLine201 = false
      ∧ containsStr putPre payloadOpen = true)
    ∧ (generateApiTestForMethod "patch" p = patchPre ++ p ++ patchSuf
      ∧ containsStr patchSuf statusLine200 = true
      ∧ containsStr patchSuf statusLine201 = false
      ∧ containsStr patchPre payloadOpen = true)
    ∧ (generateApiTestForMethod "delete" p = deletePre ++ p ++ deleteSuf
      ∧ containsStr deleteSuf statusLine200 = true
      ∧ containsStr deleteSuf statusLine201 = false
      ∧ containsStr (deletePre ++ deleteSuf) "payload" = false) := by
  refine ⟨⟨rfl, by decide, by decide, by decide⟩,
    ⟨rfl, by decide, by decide, by decide⟩,
    ⟨rfl, by decide, by decide, by decide⟩,
    ⟨rfl, by decide, by decide, by decide⟩,
    ⟨rfl, by decide, by decide, by decide⟩⟩

/-- Helper: appending strings appends their character lists. -/
theorem data_append (a b : String) : (a ++ b).data = a.data ++ b.data := by
  cases a
  cases b
  rfl

/-- Helper: the slugged primary file name is never equal to the
timestamp-suffixed alternate name (their lengths differ). -/
theorem fileName_ne_altFileName (name : String) (now : Nat) :
    slugOf name ++ ".spec.ts" ≠ altFileNameFor name now := by
  intro h
  unfold altFileNameFor at h
  have hl := congrArg (fun s => s.data.length) h
  simp only [data_append, List.length_append] at hl
  have e1 : (".spec.ts" : String).data.length = 8 := by decide
  have e2 : ("-" : String).data.length = 1 := by decide
  rw [e1, e2] at hl
  omega

/-- C6 counterexample: a test name containing the dot-spec-dot marker is
written verbatim, not slugged (first conjunct); and when a file already
exists at the exact timestamp-suffixed alternate name, generating over a
colliding primary name overwrites that existing file (remaining
conjuncts), so neither the universal slug naming nor the never-overwrites
clause holds as stated. -/
theorem generateTest_naming_counterexample :
    ((generateTest (fun _ => none) "My Test.spec.ts" 0 "c").1 = "My Test.spec.ts"
      ∧ "My Test.spec.ts" ≠ slugOf "My Test.spec.ts" ++ ".spec.ts")
    ∧ ((fun k => if k = "my-login-flow.spec.ts" then some "old1"
          else if k = "my-login-flow-5.spec.ts" then some "old2"
          else (none : Option String)) "my-login-flow-5.spec.ts" = some "old2"
      ∧ (generateTest
          (fun k => if k = "my-login-flow.spec.ts" then some "old1"
            else if k = "my-login-flow-5.spec.ts" then some "old2"
            else (none : Option String))
          "My Login Flow" 5 "new").2 "my-login-flow-5.spec.ts" = some "new"
      ∧ ("new" : String) ≠ "old2") := by
  refine ⟨⟨by decide, by decide⟩, by decide, by decide, by decide⟩

/-- C6 amended: for every test name not containing the dot-spec-dot
marker, generating with no file at the derived slug name writes exactly
that file and changes nothing else; generating while the slug file exists
writes the timestamp-suffixed alternate file, leaves the slug file's
contents unchanged, and changes nothing besides the alternate name (a
pre-existing file at the exact alternate name itself is the one case that
is overwritten). -/
theorem generateTest_slug_naming (fs : String → Option String)
    (name : String) (now : Nat) (content : String)
    (hname : containsStr name ".spec." = false) :
    (fs (slugOf name ++ ".spec.ts") = none →
      (generateTest fs name now content).1 = slugOf name ++ ".spec.ts"
      ∧ (generateTest fs name now content).2 (slugOf name ++ ".spec.ts") = some content
      ∧ ∀ k, k ≠ slugOf name ++ ".spec.ts" →
          (generateTest fs name now content).2 k = fs k)
    ∧ ((fs (slugOf name ++ ".spec.ts")).isSome = true →
      (generateTest fs name now content).1 = altFileNameFor name now
      ∧ (generateTest fs name now content).2 (altFileNameFor name now) = some content
      ∧ (generateTest fs name now content).2 (slugOf name ++ ".spec.ts")
          = fs (slugOf name ++ ".spec.ts")
      ∧ ∀ k, k ≠ altFileNameFor name now →
          (generateTest fs name now content).2 k = fs k) := by
  have hfn : fileNameFor name = slugOf name ++ ".spec.ts" := by
    unfold fileNameFor
    rw [hname]
    simp
  constructor
  · intro hnone
    unfold generateTest
    rw [hfn, hnone]
    refine ⟨rfl, by simp, ?_⟩
    intro k hk
    simp [hk]
  · intro hsome
    unfold generateTest
    rw [hfn, hsome]
    refine ⟨by simp, by simp, by simp [fileName_ne_altFileName name now], ?_⟩
    intro k hk
    simp [hk]

/-- C6 witness: generating the test named My Login Flow on an empty file
system writes my-login-flow dot spec dot ts with the given contents, and
generating again writes the alternate my-login-flow-99 name while the
first file keeps its contents. -/
theorem generateTest_slug_naming_witness :
    ((generateTest (fun _ => none) "My Login Flow" 99 "body").1
        = "my-login-flow.spec.ts"
      ∧ (generateTest (fun _ => none) "My Login Flow" 99 "body").2
          "my-login-flow.spec.ts" = some "body")
    ∧ ((generateTest
          (fun k => if k = "my-login-flow.spec.ts" then some "body" else none)
          "My Login Flow" 99 "body2").1 = "my-login-flow-99.spec.ts"
      ∧ (generateTest
          (fun k => if k = "my-login-flow.spec.ts" then some "body" else none)
          "My Login Flow" 99 "body2").2 "my-login-flow.spec.ts" = some "body") := by
  have hslug : slugOf "My Login Flow" ++ ".spec.ts" = "my-login-flow.spec.ts" := by
    decide
  have h1 := (generateTest_slug_naming (fun _ => none) "My Login Flow" 99 "body"
    (by decide)).1 (by decide)
  have h2 := (generateTest_slug_naming
    (fun k => if k = "my-login-flow.spec.ts" then some "body" else none)
    "My Login Flow" 99 "body2" (by decide)).2 (by rw [hslug]; decide)
  rw [hslug] at h1 h2
  refine ⟨⟨h1.1, h1.2.1⟩, h2.1.trans (by decide), ?_⟩
  rw [h2.2.2.1]
  simp

/-- C9 counterexample: when a file with the verbatim dot-spec-dot name
already exists, the written file name is the slug-derived timestamped
alternate, with lower-casing and whitespace-to-hyphen rewriting applied,
so the claim that such names are always used verbatim fails. -/
theorem generateTest_verbatim_counterexample :
    (generateTest
        (fun k => if k = "My Test.spec.ts" then some "old" else (none : Option String))
        "My Test.spec.ts" 7 "new").1 = "my-test.spec.ts-7.spec.ts"
    ∧ ("my-test.spec.ts-7.spec.ts" : String) ≠ "My Test.spec.ts" := by
  refine ⟨by decide, by decide⟩

/-- C9 amended: a test name containing the dot-spec-dot marker is used
verbatim as the derived file name, with no slugging, and is the name
written when no file with that name exists; only on a collision does the
slug-derived timestamped alternate name apply. -/
theorem generateTest_verbatim_naming (fs : String → Option String)
    (name : String) (now : Nat) (content : String)
    (hname : containsStr name ".spec." = true) :
    fileNameFor name = name
    ∧ (fs name = none →
        (generateTest fs name now content).1 = name
        ∧ (generateTest fs name now content).2 name = some content)
    ∧ ((fs name).isSome = true →
        (generateTest fs name now content).1 = altFileNameFor name now) := by
  have hfn : fileNameFor name = name := by
    unfold fileNameFor
    rw [hname]
    simp
  refine ⟨hfn, ?_, ?_⟩
  · intro hnone
    unfold generateTest
    rw [hfn, hnone]
    refine ⟨rfl, by simp⟩
  · intro hsome
    unfold generateTest
    rw [hfn, hsome]
    rfl

/-- C9 witness: the name My Test dot spec dot ts is used verbatim on an
empty file system, and collides into the slugged alternate name when it
already exists. -/
theorem generateTest_verbatim_naming_witness :
    ((generateTest (fun _ => none) "My Test.spec.ts" 7 "new").1 = "My Test.spec.ts")
    ∧ ((generateTest
        (fun k => if k = "My Test.spec.ts" then some "old" else none)
        "My Test.spec.ts" 7 "new").1 = "my-test.spec.ts-7.spec.ts") := by
  have h1 := generateTest_verbatim_naming (fun _ => none) "My Test.spec.ts" 7 "new"
    (by decide)
  have h2 := generateTest_verbatim_naming
    (fun k => if k = "My Test.spec.ts" then some "old" else none)
    "My Test.spec.ts" 7 "new" (by decide)
  refine ⟨(h1.2.1 (by decide)).1, (h2.2.2 (by decide)).trans (by decide)⟩

/-- C5 counterexample: with no socket URL present, the emitted websocket
test is not the URL-present template at the fixed default URL — the
default template contains no disconnection-handling test and no
five-second timeout. -/
theorem wsDefaultTemplate_counterexample :
    wsGenerateTestContent "T" none
        ≠ wsGenerateTestContent "T" (some "ws://localhost:3000/ws")
    ∧ containsStr (wsGenerateTestContent "T" none) "should handle disconnection" = false
    ∧ containsStr (wsGenerateTestContent "T" none) "5000" = false := by
  refine ⟨by decide, by decide, by decide⟩

/-- C5 amended: with a socket URL present the Template Selector emits the
three tests (connection establishment, send-and-receive with the
five-second response timeout, disconnection handling) parameterized by
that URL; with no socket URL present it emits, against the fixed default
URL ws with localhost port 3000 path ws, only the connection and
send-and-receive tests, the latter with no timeout, and no disconnection
test. -/
theorem wsDefaultTemplate_amended (name u : String) :
    (wsGenerateTestContent name (some u)
        = wsUrlPre ++ name ++ wsUrlMid ++ u ++ wsUrlSuf
      ∧ containsStr wsUrlSuf "should establish connection" = true
      ∧ containsStr wsUrlSuf "should send and receive message" = true
      ∧ containsStr wsUrlSuf "should handle disconnection properly" = true
      ∧ containsStr wsUrlSuf ", 5000);" = true)
    ∧ (wsGenerateTestContent name none = wsDefPre ++ name ++ wsDefSuf
      ∧ containsStr wsDefSuf "new WebSocket('ws://localhost:3000/ws')" = true
      ∧ containsStr wsDefSuf "should establish connection" = true
      ∧ containsStr wsDefSuf "should send and receive message" = true
      ∧ containsStr wsDefSuf "should handle disconnection" = false
      ∧ containsStr wsDefSuf "setTimeout" = false
      ∧ containsStr wsDefSuf "5000" = false) := by
  refine ⟨⟨rfl, by decide, by decide, by decide, by decide⟩,
    rfl, by decide, by decide, by decide, by decide, by decide, by decide⟩

/-- Helper: when the subject matches the first socket pattern, the
fuelled while-exec loop never returns, whatever the fuel and whatever has
been accumulated. -/
theorem p1LoopFuel_none (file : String) (content : List Char) (cap : List Char)
    (hm : exec1 content = some cap) :
    ∀ (fuel : Nat) (acc : List SockImpl), p1LoopFuel file content fuel acc = none := by
  intro fuel
  induction fuel with
  | zero => intro acc; rfl
  | succ n ih =>
    intro acc
    unfold p1LoopFuel
    rw [hm]
    exact ih (acc ++ [⟨file, some ⟨cap⟩⟩])

/-- C3: the websocket scan does not terminate on a file whose content
matches the case-insensitive identifier pattern: for every amount of
fuel, the scan of the two-character content ws is still running, because
the first socket pattern lacks the global flag and its exec restarts from
index zero on every loop iteration. -/
theorem websocketScan_diverges_on_match (fuel : Nat) :
    analyzeWebSockets fuel [("app.ts", "ws")] = none := by
  have hm : exec1 ("ws" : String).data = some ['w', 's'] := by decide
  unfold analyzeWebSockets analyzeWebSocketsGo scanFileSockets
  rw [p1LoopFuel_none "app.ts" ("ws" : String).data ['w', 's'] hm fuel []]

/-- Helper: the file fold returns the flag it was given. -/
theorem analyzeWebSocketsGo_flag (fuel : Nat) :
    ∀ (files : List (String × String)) (hws : Bool) (acc : List SockImpl)
      (res : WsScanResult),
      analyzeWebSocketsGo fuel files hws acc = some res →
      res.hasWebSockets = hws := by
  intro files
  induction files with
  | nil =>
    intro hws acc res h
    simp [analyzeWebSocketsGo] at h
    rw [← h]
  | cons fc rest ih =>
    intro hws acc res h
    obtain ⟨f, c⟩ := fc
    unfold analyzeWebSocketsGo at h
    cases hs : scanFileSockets fuel f c with
    | none => rw [hs] at h; exact absurd h (by simp)
    | some l => rw [hs] at h; exact ih hws (acc ++ l) res h

/-- C4: whenever the websocket scan completes, the has-websockets flag of
the returned Scan Result is false — the source branch that would set it
is unreachable, because the guard on the exec function holds of every
regex object. -/
theorem websocketFlag_never_set (fuel : Nat) (files : List (String × String))
    (res : WsScanResult) (h : analyzeWebSockets fuel files = some res) :
    res.hasWebSockets = false :=
  analyzeWebSocketsGo_flag fuel files false [] res h

/-- C4 witness: a completed scan over one file with a URL-bearing socket
call returns entries but a false has-websockets flag. -/
theorem websocketFlag_never_set_witness :
    analyzeWebSockets 3 [("a.ts", "x = io('http://h/s');")]
      = some ⟨false, [⟨"a.ts", some "http://h/s"⟩]⟩
    ∧ (⟨false, [⟨"a.ts", some "http://h/s"⟩]⟩ : WsScanResult).hasWebSockets = false := by
  refine ⟨by decide, ?_⟩
  exact websocketFlag_never_set 3 [("a.ts", "x = io('http://h/s');")]
    ⟨false, [⟨"a.ts", some "http://h/s"⟩]⟩ (by decide)

mutual

/-- Helper: the traversal of one pruned entry equals the traversal of the
entry itself. -/
theorem prune_soundE : ∀ (e : FsEntry) (pre : String) (exts : List String),
    (match pruneE e with
     | none => ([] : List String)
     | some e2 => findFilesE pre exts e2) = findFilesE pre exts e
  | .file n, pre, exts => by simp [pruneE, findFilesE]
  | .dir n es, pre, exts => by
    by_cases h : n ∈ excludedDirs
    · simp [pruneE, h, findFilesE]
    · simp [pruneE, h, findFilesE, prune_soundL es (pre ++ "/" ++ n) exts]

/-- Helper: the traversal of a pruned entry list equals the traversal of
the list itself. -/
theorem prune_soundL : ∀ (es : List FsEntry) (pre : String) (exts : List String),
    findFilesL pre exts (pruneL es) = findFilesL pre exts es
  | [], _, _ => rfl
  | e :: rest, pre, exts => by
    have hA := prune_soundE e pre exts
    cases hp : pruneE e with
    | none =>
      rw [hp] at hA
      simp [pruneL, hp, findFilesL, ← hA, prune_soundL rest pre exts]
    | some e2 =>
      rw [hp] at hA
      dsimp only at hA
      simp [pruneL, hp, findFilesL, hA, prune_soundL rest pre exts]

end

/-- C8: the traversal never returns a path from under an excluded
directory: its result on any tree equals its result on the tree with
every directory named node_modules, .git, dist or build removed whole at
every depth, and an excluded directory entry contributes no path at all,
whatever its subtree. -/
theorem findFiles_skips_excluded (pre : String) (exts : List String)
    (entries : List FsEntry) :
    findFiles pre exts entries = findFiles pre exts (pruneL entries)
    ∧ (∀ es : List FsEntry,
        findFilesE pre exts (.dir "node_modules" es) = []
        ∧ findFilesE pre exts (.dir ".git" es) = []
        ∧ findFilesE pre exts (.dir "dist" es) = []
        ∧ findFilesE pre exts (.dir "build" es) = []) := by
  refine ⟨(prune_soundL entries pre exts).symm, ?_⟩
  intro es
  refine ⟨?_, ?_, ?_, ?_⟩ <;> simp [findFilesE, excludedDirs]

/-- Helper: the Boolean prefix test agrees with the prefix relation. -/
theorem prefB_iff : ∀ (p s : List Char), prefB p s = true ↔ p <+: s
  | [], s => by simp [prefB]
  | _ :: _, [] => by simp [prefB]
  | a :: as, b :: bs => by
    rw [prefB, Bool.and_eq_true, beq_iff_eq, List.cons_prefix_cons]
    exact and_congr Iff.rfl (prefB_iff as bs)

/-- Helper: a list is a prefix of itself extended by anything. -/
theorem prefB_append_self (p s : List Char) : prefB p (p ++ s) = true :=
  (prefB_iff p (p ++ s)).mpr ⟨s, rfl⟩

/-- Helper: a replacement string without dollars expands to itself. -/
theorem expand_nodollar (m b a : List Char) :
    ∀ (v : List Char), '$' ∉ v → expandDollar m b a v = v
  | [], _ => rfl
  | c :: rest, h => by
    have hc : c ≠ '$' := fun hcc => h (hcc ▸ List.mem_cons_self c rest)
    have hr : '$' ∉ rest := fun hm => h (List.mem_cons_of_mem c hm)
    unfold expandDollar
    rw [if_neg hc, expand_nodollar m b a rest hr]

/-- Helper: the first-occurrence split of a pattern opening with a brace
passes over a brace-free block. -/
theorem splitFirst_skip_lit (p' l : List Char) (hl : '{' ∉ l) :
    ∀ s, splitFirst ('{' :: p') (l ++ s)
      = (splitFirst ('{' :: p') s).map (fun ab => (l ++ ab.1, ab.2)) := by
  induction l with
  | nil =>
    intro s
    cases h : splitFirst ('{' :: p') s <;> simp [h]
  | cons c ls ih =>
    intro s
    have hc : c ≠ '{' := fun hcc => hl (hcc ▸ List.mem_cons_self c ls)
    have hls : '{' ∉ ls := fun hm => hl (List.mem_cons_of_mem c hm)
    have hne : (('{' : Char) == c) = false := beq_eq_false_iff_ne.mpr (Ne.symm hc)
    have hpf : prefB ('{' :: p') (c :: (ls ++ s)) = false := by
      rw [prefB, hne, Bool.false_and]
    cases hsp : splitFirst ('{' :: p') s with
    | none =>
      simp [List.cons_append, splitFirst, hpf, ih hls s, hsp]
    | some ab =>
      simp [List.cons_append, splitFirst, hpf, ih hls s, hsp]

/-- Helper: appends followed by an absent separator character cancel. -/
theorem append_sep_inj (sep : Char) : ∀ (a b x y : List Char), sep ∉ a → sep ∉ b →
    a ++ sep :: x = b ++ sep :: y → a = b ∧ x = y
  | [], [], x, y, _, _, h => by
    simp at h
    exact ⟨rfl, h⟩
  | [], c :: bs, x, y, _, hb, h => by
    rw [List.nil_append, List.cons_append] at h
    injection h with h1 _
    exact absurd (by rw [h1]; exact List.mem_cons_self c bs) hb
  | c :: as, [], x, y, ha, _, h => by
    rw [List.nil_append, List.cons_append] at h
    injection h with h1 _
    exact absurd (by rw [← h1]; exact List.mem_cons_self c as) ha
  | c :: as, d :: bs, x, y, ha, hb, h => by
    rw [List.cons_append, List.cons_append] at h
    injection h with h1 h2
    have has : sep ∉ as := fun hm => ha (List.mem_cons_of_mem c hm)
    have hbs : sep ∉ bs := fun hm => hb (List.mem_cons_of_mem d hm)
    obtain ⟨he, hxy⟩ := append_sep_inj sep as bs x y has hbs h2
    exact ⟨by rw [h1, he], hxy⟩

/-- Helper: a token can only be a prefix of a subject starting with a
token when the two token names are equal. -/
theorem token_head_eq (p n s : List Char) (hp : '}' ∉ p) (hn : '}' ∉ n)
    (h : prefB (mkTok p) (mkTok n ++ s) = true) : p = n := by
  obtain ⟨t, ht⟩ := (prefB_iff _ _).mp h
  unfold mkTok at ht
  simp only [List.cons_append, List.append_assoc, List.cons.injEq, true_and] at ht
  have ht2 : p ++ '}' :: '}' :: t = n ++ '}' :: '}' :: s := by
    simpa using ht
  exact (append_sep_inj '}' p n ('}' :: t) ('}' :: s) hp hn ht2).1

/-- Helper: one scan step of the first-occurrence split. -/
theorem splitFirst_cons_false (pat : List Char) (c : Char) (rest : List Char)
    (h : prefB pat (c :: rest) = false) :
    splitFirst pat (c :: rest)
      = (splitFirst pat rest).map (fun ab => (c :: ab.1, ab.2)) := by
  rw [splitFirst, h]
  simp

/-- Helper: the first-occurrence split of a token pattern passes over any
well-formed piece other than that token. -/
theorem splitFirst_skip_piece (pname : List Char) (hpRB : '}' ∉ pname)
    (p : Piece) (hwf : pieceWF p) (hne : p ≠ .tok pname) (s : List Char) :
    splitFirst (mkTok pname) (renderPiece p ++ s)
      = (splitFirst (mkTok pname) s).map (fun ab => (renderPiece p ++ ab.1, ab.2)) := by
  cases p with
  | lit l =>
    have hl : '{' ∉ l := hwf
    exact splitFirst_skip_lit ('{' :: (pname ++ ['}', '}'])) l hl s
  | tok n =>
    obtain ⟨hne0, hnLB, hnRB⟩ := hwf
    have hnNe : pname ≠ n := fun he => hne (by rw [he])
    cases n with
    | nil => exact absurd rfl hne0
    | cons n0 n' =>
      have hn0 : n0 ≠ '{' := fun he => hnLB (he ▸ List.mem_cons_self n0 n')
      have e : renderPiece (.tok (n0 :: n')) ++ s
          = '{' :: '{' :: n0 :: (n' ++ '}' :: '}' :: s) := by
        simp [renderPiece, mkTok]
      have e2 : mkTok (n0 :: n') ++ s = '{' :: '{' :: n0 :: (n' ++ '}' :: '}' :: s) := by
        simp [mkTok]
      have h0 : prefB (mkTok pname) ('{' :: '{' :: n0 :: (n' ++ '}' :: '}' :: s)) = false := by
        rw [← e2]
        cases hb : prefB (mkTok pname) (mkTok (n0 :: n') ++ s) with
        | false => rfl
        | true => exact absurd (token_head_eq pname (n0 :: n') s hpRB hnRB hb) hnNe
      have eb : (('{' : Char) == n0) = false := beq_eq_false_iff_ne.mpr (Ne.symm hn0)
      have h1 : prefB (mkTok pname) ('{' :: n0 :: (n' ++ '}' :: '}' :: s)) = false := by
        simp [mkTok, prefB, eb]
      have h2 : ∀ x, prefB (mkTok pname) ('}' :: x) = false := by
        intro x
        simp [mkTok, prefB]
      have hskip : splitFirst (mkTok pname) (n0 :: (n' ++ '}' :: '}' :: s))
          = (splitFirst (mkTok pname) ('}' :: '}' :: s)).map
              (fun ab => ((n0 :: n') ++ ab.1, ab.2)) := by
        have hs := splitFirst_skip_lit ('{' :: (pname ++ ['}', '}'])) (n0 :: n')
          hnLB ('}' :: '}' :: s)
        simpa [mkTok] using hs
      rw [e, splitFirst_cons_false _ _ _ h0, splitFirst_cons_false _ _ _ h1, hskip,
        splitFirst_cons_false _ _ _ (h2 ('}' :: s)), splitFirst_cons_false _ _ _ (h2 s)]
      cases hsp : splitFirst (mkTok pname) s with
      | none => simp
      | some ab =>
        obtain ⟨a, b⟩ := ab
        simp [renderPiece, mkTok]

/-- Helper: rendering distributes over appending piece lists. -/
theorem render_append : ∀ (a b : List Piece), render (a ++ b) = render a ++ render b
  | [], b => by simp [render]
  | p :: r, b => by simp [render, render_append r b]

/-- Helper: a replacement step leaves a piece list without that token
unchanged. -/
theorem map_replace_id (pname v : List Char) : ∀ (ps : List Piece),
    Piece.tok pname ∉ ps → ps.map (replacePiece pname v) = ps
  | [], _ => rfl
  | p :: rest, h => by
    have hp : p ≠ Piece.tok pname := fun he => h (he ▸ List.mem_cons_self p rest)
    have hrest := map_replace_id pname v rest (fun hm => h (List.mem_cons_of_mem p hm))
    cases p with
    | lit l => simp [replacePiece, hrest]
    | tok n =>
      have hn : n ≠ pname := fun he => hp (by rw [he])
      simp [replacePiece, hn, hrest]

/-- Helper: a piece list either avoids a token or splits at its first
occurrence. -/
theorem first_tok_decomp (pname : List Char) : ∀ ps : List Piece,
    Piece.tok pname ∉ ps
      ∨ ∃ xs ys, ps = xs ++ Piece.tok pname :: ys ∧ Piece.tok pname ∉ xs
  | [] => Or.inl (List.not_mem_nil _)
  | p :: rest => by
    by_cases hp : p = Piece.tok pname
    · exact Or.inr ⟨[], rest, by rw [hp, List.nil_append], List.not_mem_nil _⟩
    · cases first_tok_decomp pname rest with
      | inl h =>
        exact Or.inl fun hm => (List.mem_cons.mp hm).elim (fun he => hp he.symm) h
      | inr h =>
        obtain ⟨xs, ys, heq, hnin⟩ := h
        exact Or.inr ⟨p :: xs, ys, by rw [heq, List.cons_append],
          fun hm => (List.mem_cons.mp hm).elim (fun he => hp he.symm) hnin⟩

/-- Helper: the first-occurrence split returns none on the rendering of a
well-formed piece list without the token. -/
theorem splitFirst_render_none (pname : List Char) (hpRB : '}' ∉ pname) :
    ∀ ps : List Piece, piecesWF ps → Piece.tok pname ∉ ps →
      splitFirst (mkTok pname) (render ps) = none
  | [], _, _ => rfl
  | p :: rest, hwf, hnin => by
    have h1 := splitFirst_skip_piece pname hpRB p (hwf p (List.mem_cons_self p rest))
      (fun he => hnin (he ▸ List.mem_cons_self p rest)) (render rest)
    rw [render, h1, splitFirst_render_none pname hpRB rest
      (fun q hq => hwf q (List.mem_cons_of_mem p hq))
      (fun hm => hnin (List.mem_cons_of_mem p hm))]
    rfl

/-- Helper: the first-occurrence split succeeds immediately when the
subject starts with the pattern. -/
theorem splitFirst_head_match (pat s : List Char) (hne : pat ≠ []) :
    splitFirst pat (pat ++ s) = some ([], s) := by
  cases pat with
  | nil => exact absurd rfl hne
  | cons c p' =>
    have hpre : prefB (c :: p') (c :: (p' ++ s)) = true := prefB_append_self (c :: p') s
    rw [List.cons_append, splitFirst, hpre]
    simp [List.drop_left]

/-- Helper: the first-occurrence split on the rendering of a list that
splits at its first token occurrence finds exactly that occurrence. -/
theorem splitFirst_render_found (pname : List Char) (hpRB : '}' ∉ pname) :
    ∀ xs ys : List Piece, piecesWF (xs ++ Piece.tok pname :: ys) →
      Piece.tok pname ∉ xs →
      splitFirst (mkTok pname) (render (xs ++ Piece.tok pname :: ys))
        = some (render xs, render ys)
  | [], ys, _, _ => by
    rw [List.nil_append, render]
    exact splitFirst_head_match (mkTok pname) (render ys) (by simp [mkTok])
  | p :: xs, ys, hwf, hnin => by
    have hp : p ≠ Piece.tok pname := fun he => hnin (he ▸ List.mem_cons_self p xs)
    have hwfp : pieceWF p := hwf p (List.mem_cons_self p _)
    have hwfrest : piecesWF (xs ++ Piece.tok pname :: ys) :=
      fun q hq => hwf q (List.mem_cons_of_mem p hq)
    have hrec := splitFirst_render_found pname hpRB xs ys hwfrest
      (fun hm => hnin (List.mem_cons_of_mem p hm))
    rw [List.cons_append, render,
      splitFirst_skip_piece pname hpRB p hwfp hp (render (xs ++ Piece.tok pname :: ys)),
      hrec]
    simp [render]

/-- Helper: a piece list holds at most as many tokens of one name as its
rendering has characters. -/
theorem count_tok_le_render (pname : List Char) : ∀ ps : List Piece,
    List.count (Piece.tok pname) ps ≤ (render ps).length
  | [] => Nat.le_refl 0
  | p :: rest => by
    have ih := count_tok_le_render pname rest
    rw [render, List.length_append]
    by_cases hp : p = Piece.tok pname
    · subst hp
      rw [List.count_cons_self]
      have : 1 ≤ (renderPiece (Piece.tok pname)).length := by
        simp [renderPiece, mkTok]
      omega
    · rw [List.count_cons_of_ne (by exact fun he => hp he.symm)]
      omega

/-- Helper: a replacement step with a brace-free value preserves piece
well-formedness. -/
theorem piecesWF_map_replace (pname v : List Char) (hv : '{' ∉ v)
    (ps : List Piece) (hwf : piecesWF ps) :
    piecesWF (ps.map (replacePiece pname v)) := by
  intro q hq
  obtain ⟨p, hp, rfl⟩ := List.mem_map.mp hq
  cases p with
  | lit l => exact hwf _ hp
  | tok nn =>
    by_cases he : nn = pname
    · simpa [replacePiece, he, pieceWF] using hv
    · simpa [replacePiece, he] using hwf _ hp

/-- Helper: one global replace of one token pattern on the rendering of a
well-formed piece list replaces exactly the pieces bearing that token. -/
theorem replStep (pname v : List Char) (hpRB : '}' ∉ pname) (hv : '$' ∉ v) :
    ∀ (n : Nat) (ps : List Piece), piecesWF ps →
      List.count (Piece.tok pname) ps ≤ n →
      ∀ before, jsReplN (mkTok pname) v n before (render ps)
        = render (ps.map (replacePiece pname v)) := by
  intro n
  induction n with
  | zero =>
    intro ps hwf hcount before
    have hnin : Piece.tok pname ∉ ps :=
      List.count_eq_zero.mp (Nat.le_zero.mp hcount)
    rw [map_replace_id pname v ps hnin]
    rfl
  | succ n ih =>
    intro ps hwf hcount before
    cases first_tok_decomp pname ps with
    | inl hnin =>
      rw [map_replace_id pname v ps hnin]
      unfold jsReplN
      rw [splitFirst_render_none pname hpRB ps hwf hnin]
    | inr hdec =>
      obtain ⟨xs, ys, rfl, hnin⟩ := hdec
      have hwfys : piecesWF ys := fun q hq => hwf q (by
        exact List.mem_append.mpr (Or.inr (List.mem_cons_of_mem _ hq)))
      have hfound := splitFirst_render_found pname hpRB xs ys hwf hnin
      unfold jsReplN
      rw [hfound]
      dsimp only
      rw [expand_nodollar _ _ _ v hv]
      have hcys : List.count (Piece.tok pname) ys ≤ n := by
        rw [List.count_append, List.count_cons_self] at hcount
        omega
      rw [ih ys hwfys hcys (before ++ render xs ++ mkTok pname)]
      rw [List.map_append, render_append, List.map_cons]
      rw [map_replace_id pname v xs hnin]
      simp [render, renderPiece, replacePiece]

/-- Helper: one global replace call on strings, on the rendering of a
well-formed piece list. -/
theorem jsReplaceAll_pieces (pname : List Char) (vS tokS : String)
    (hpRB : '}' ∉ pname) (hv : '$' ∉ vS.data)
    (htok : tokS.data = mkTok pname)
    (ps : List Piece) (hwf : piecesWF ps) :
    jsReplaceAll ⟨render ps⟩ tokS vS
      = ⟨render (ps.map (replacePiece pname vS.data))⟩ := by
  unfold jsReplaceAll
  congr 1
  rw [htok]
  exact replStep pname vS.data hpRB hv _ ps hwf (count_tok_le_render pname ps) []

/-- Helper: the seven replacement steps compose to the simultaneous
per-piece substitution. -/
theorem map_subst_chain (cfg : Config) (ps : List Piece) :
    ((((((ps.map (replacePiece "projectName".data cfg.projectName.data)).map
        (replacePiece "baseUrl".data cfg.baseUrl.data)).map
        (replacePiece "apiUrl".data cfg.apiUrl.data)).map
        (replacePiece "adminEmail".data cfg.adminEmail.data)).map
        (replacePiece "adminPassword".data cfg.adminPassword.data)).map
        (replacePiece "userEmail".data cfg.userEmail.data)).map
        (replacePiece "userPassword".data cfg.userPassword.data)
      = ps.map (substPiece cfg) := by
  simp only [List.map_map]
  apply List.map_congr_left
  intro p _
  cases p with
  | lit l => simp [Function.comp, replacePiece, substPiece]
  | tok n =>
    by_cases h1 : n = "projectName".data
    · simp [Function.comp, replacePiece, substPiece, h1]
    · by_cases h2 : n = "baseUrl".data
      · simp [Function.comp, replacePiece, substPiece, h1, h2]
      · by_cases h3 : n = "apiUrl".data
        · simp [Function.comp, replacePiece, substPiece, h1, h2, h3]
        · by_cases h4 : n = "adminEmail".data
          · simp [Function.comp, replacePiece, substPiece, h1, h2, h3, h4]
          · by_cases h5 : n = "adminPassword".data
            · simp [Function.comp, replacePiece, substPiece, h1, h2, h3, h4, h5]
            · by_cases h6 : n = "userEmail".data
              · simp [Function.comp, replacePiece, substPiece, h1, h2, h3, h4, h5, h6]
              · by_cases h7 : n = "userPassword".data
                · simp [Function.comp, replacePiece, substPiece, h1, h2, h3, h4, h5, h6, h7]
                · simp [Function.comp, replacePiece, substPiece, h1, h2, h3, h4, h5, h6, h7]

/-- Helper: the full substitution chain on the rendering of a well-formed
piece list under benign values is the simultaneous per-piece
substitution. -/
theorem substitutePlaceholders_pieces (cfg : Config) (hb : configBenign cfg)
    (ps : List Piece) (hwf : piecesWF ps) :
    substitutePlaceholders ⟨render ps⟩ cfg
      = ⟨render (ps.map (substPiece cfg))⟩ := by
  obtain ⟨⟨hb1L, hb1D⟩, ⟨hb2L, hb2D⟩, ⟨hb3L, hb3D⟩, ⟨hb4L, hb4D⟩,
    ⟨hb5L, hb5D⟩, ⟨hb6L, hb6D⟩, ⟨hb7L, hb7D⟩⟩ := hb
  have hwf1 := piecesWF_map_replace "projectName".data cfg.projectName.data hb1L ps hwf
  have hwf2 := piecesWF_map_replace "baseUrl".data cfg.baseUrl.data hb2L _ hwf1
  have hwf3 := piecesWF_map_replace "apiUrl".data cfg.apiUrl.data hb3L _ hwf2
  have hwf4 := piecesWF_map_replace "adminEmail".data cfg.adminEmail.data hb4L _ hwf3
  have hwf5 := piecesWF_map_replace "adminPassword".data cfg.adminPassword.data hb5L _ hwf4
  have hwf6 := piecesWF_map_replace "userEmail".data cfg.userEmail.data hb6L _ hwf5
  unfold substitutePlaceholders
  rw [jsReplaceAll_pieces "projectName".data cfg.projectName tokenProjectName
    (by decide) hb1D (by decide) ps hwf]
  rw [jsReplaceAll_pieces "baseUrl".data cfg.baseUrl tokenBaseUrl
    (by decide) hb2D (by decide) _ hwf1]
  rw [jsReplaceAll_pieces "apiUrl".data cfg.apiUrl tokenApiUrl
    (by decide) hb3D (by decide) _ hwf2]
  rw [jsReplaceAll_pieces "adminEmail".data cfg.adminEmail tokenAdminEmail
    (by decide) hb4D (by decide) _ hwf3]
  rw [jsReplaceAll_pieces "adminPassword".data cfg.adminPassword tokenAdminPassword
    (by decide) hb5D (by decide) _ hwf4]
  rw [jsReplaceAll_pieces "userEmail".data cfg.userEmail tokenUserEmail
    (by decide) hb6D (by decide) _ hwf5]
  rw [jsReplaceAll_pieces "userPassword".data cfg.userPassword tokenUserPassword
    (by decide) hb7D (by decide) _ hwf6]
  rw [map_subst_chain]

/-- C7 counterexample: with the admin email configured empty (the
source's fallback for an absent credential), substitution over content
whose only token occurrence is the admin-email token does not leave the
surrounding text untouched — the text joined around the erased token
forms a user-email token, which the later chained replace then also
substitutes, while the claim demands the surrounding text survive
unchanged. -/
theorem placeholderSubstitution_counterexample :
    substitutePlaceholders "\x7b\x7buser\x7b\x7badminEmail\x7d\x7dEmail\x7d\x7d"
        ⟨"P", "B", "A", "", "", "U", "W"⟩ = "U"
    ∧ ("U" : String) ≠ "\x7b\x7buserEmail\x7d\x7d" := by
  refine ⟨by decide, by decide⟩

/-- C7 amended: for every gated file name, benign configuration values
(no braces, no dollars) and content made of brace-free literal runs and
whole well-formed tokens, processing replaces every occurrence of each of
the seven tokens by its configuration value — both occurrences when a
token occurs twice — and leaves every literal run and every unrecognized
token untouched. -/
theorem placeholderSubstitution_amended (fileName : String) (cfg : Config)
    (ps : List Piece) (hgate : shouldProcess fileName = true)
    (hb : configBenign cfg) (hwf : piecesWF ps) :
    processFile fileName ⟨render ps⟩ cfg = ⟨render (ps.map (substPiece cfg))⟩ := by
  unfold processFile
  rw [hgate]
  simp only [if_true]
  exact substitutePlaceholders_pieces cfg hb ps hwf

/-- C7 witness: a json file whose content holds the base-URL token twice
and one unrecognized token has both base-URL occurrences replaced and the
unknown token kept. -/
theorem placeholderSubstitution_amended_witness :
    processFile "config.json"
        "url: \x7b\x7bbaseUrl\x7d\x7d and \x7b\x7bbaseUrl\x7d\x7d t \x7b\x7bunknownToken\x7d\x7d"
        ⟨"P", "http://b", "A", "ae", "ap", "ue", "up"⟩
      = "url: http://b and http://b t \x7b\x7bunknownToken\x7d\x7d" := by
  have hc : ("url: \x7b\x7bbaseUrl\x7d\x7d and \x7b\x7bbaseUrl\x7d\x7d t \x7b\x7bunknownToken\x7d\x7d" : String)
      = ⟨render [Piece.lit "url: ".data, Piece.tok "baseUrl".data, Piece.lit " and ".data,
          Piece.tok "baseUrl".data, Piece.lit " t ".data, Piece.tok "unknownToken".data]⟩ := by
    decide
  have h := placeholderSubstitution_amended "config.json"
    ⟨"P", "http://b", "A", "ae", "ap", "ue", "up"⟩
    [Piece.lit "url: ".data, Piece.tok "baseUrl".data, Piece.lit " and ".data,
      Piece.tok "baseUrl".data, Piece.lit " t ".data, Piece.tok "unknownToken".data]
    (by decide) (by decide) (by decide)
  rw [hc, h]
  decide

/-- Helper: with a dollar-free value the JavaScript replace coincides
with the fully literal replace, whatever the fuel and context. -/
theorem jsReplN_nodollar (pat v : List Char) (hv : '$' ∉ v) :
    ∀ (n : Nat) (before s : List Char),
      jsReplN pat v n before s = literalReplN pat v n s := by
  intro n
  induction n with
  | zero => intro before s; rfl
  | succ n ih =>
    intro before s
    unfold jsReplN literalReplN
    cases hsp : splitFirst pat s with
    | none => rfl
    | some ab =>
      obtain ⟨a, b⟩ := ab
      dsimp only
      rw [expand_nodollar _ _ _ v hv, ih (before ++ a ++ pat) b]

/-- Helper: the string-level replace with a dollar-free value is the
literal replace. -/
theorem jsReplaceAll_literal (s pat v : String) (hv : '$' ∉ v.data) :
    jsReplaceAll s pat v = literalReplaceAll s pat v :=
  congrArg String.mk (jsReplN_nodollar pat.data v.data hv s.data.length [] s.data)

/-- C10 counterexample: a configured base URL consisting of the dollar
and ampersand characters is not inserted character for character — the
JavaScript replacement expansion substitutes the matched token text
instead, so the output differs from the claimed literal insertion. -/
theorem dollarValue_counterexample :
    substitutePlaceholders "x\x7b\x7bbaseUrl\x7d\x7dy" ⟨"", "$&", "", "", "", "", ""⟩
      = "x\x7b\x7bbaseUrl\x7d\x7dy"
    ∧ substitutePlaceholders "x\x7b\x7bbaseUrl\x7d\x7dy" ⟨"", "$&", "", "", "", "", ""⟩
      ≠ "x$&y" := by
  refine ⟨by decide, by decide⟩

/-- C10 amended: for every content and configuration whose values hold no
dollar character, the substitution chain equals the fully literal replace
chain, which inserts each configured value character for character; a
value holding dollar sequences is instead transformed by the JavaScript
replacement-pattern expansion. -/
theorem dollarFreeValues_literal (content : String) (cfg : Config)
    (h1 : '$' ∉ cfg.projectName.data) (h2 : '$' ∉ cfg.baseUrl.data)
    (h3 : '$' ∉ cfg.apiUrl.data) (h4 : '$' ∉ cfg.adminEmail.data)
    (h5 : '$' ∉ cfg.adminPassword.data) (h6 : '$' ∉ cfg.userEmail.data)
    (h7 : '$' ∉ cfg.userPassword.data) :
    substitutePlaceholders content cfg
      = literalReplaceAll (literalReplaceAll (literalReplaceAll (literalReplaceAll
          (literalReplaceAll (literalReplaceAll (literalReplaceAll content
            tokenProjectName cfg.projectName) tokenBaseUrl cfg.baseUrl)
            tokenApiUrl cfg.apiUrl) tokenAdminEmail cfg.adminEmail)
            tokenAdminPassword cfg.adminPassword) tokenUserEmail cfg.userEmail)
          tokenUserPassword cfg.userPassword := by
  unfold substitutePlaceholders
  rw [jsReplaceAll_literal _ _ _ h1, jsReplaceAll_literal _ _ _ h2,
    jsReplaceAll_literal _ _ _ h3, jsReplaceAll_literal _ _ _ h4,
    jsReplaceAll_literal _ _ _ h5, jsReplaceAll_literal _ _ _ h6,
    jsReplaceAll_literal _ _ _ h7]

/-- C10 witness: dollar-free values are inserted exactly. -/
theorem dollarFreeValues_literal_witness :
    substitutePlaceholders "x\x7b\x7bbaseUrl\x7d\x7dy" ⟨"p", "B", "a", "e", "w", "u", "q"⟩
      = "xBy" := by
  have h := dollarFreeValues_literal "x\x7b\x7bbaseUrl\x7d\x7dy"
    ⟨"p", "B", "a", "e", "w", "u", "q"⟩
    (by decide) (by decide) (by decide) (by decide) (by decide) (by decide) (by decide)
  exact h.trans (by decide)
